import Mathlib

/-!
Verification development for the AIE objectFifo stateful transform pass
(src/lib/AIEObjectFifoStatefulTransform.cpp).

The pass lowers objectFifo declarations into buffers, locks, DMA descriptor
chains and unrolled loops.  Each definition below is a shallow embedding of
one function (or one contiguous code region) of the C++ source; the source
file and line ranges are cited in the doc comments.  C++ `int`/`int64_t`
arithmetic is embedded as `Int` with `Int.tdiv`/`Int.tmod` (truncating
division, exactly the C++ semantics); values that are nonnegative counts in
the source (sizes, lock indices, acquire numbers) are embedded as `Nat`.
Fatal `assert` failures are embedded as `Option`/`none` results.
-/

/-- Port of an objectFifo operation (`ObjectFifoPort` in the AIE dialect). -/
inductive ObjectFifoPort where
  | Produce
  | Consume
deriving DecidableEq, Repr

/-!
Lock Analysis (source lines 63-90).

`locksPerTile` is a map from (tile, index) to a usage count, defaulting to 0
(DenseMap semantics).  We model the per-tile slice of the map as a function
`Nat → Nat` from lock index to usage count; distinct tiles have independent
slices, so the allocator for one tile is fully described by its slice.
-/

/-- One step of the scan in LockAnalysis::getLockID (source lines 81-87):
walk the given candidate indices in order, return the first one whose usage
count is 0 together with the updated usage map (the source writes
`locksPerTile[(tile,i)] = 1` before returning), or -1 with the map unchanged
when no candidate is free (source line 88). -/
def getLockIDGo (usage : Nat → Nat) : List Nat → Int × (Nat → Nat)
  | [] => (-1, usage)
  | i :: rest =>
    if usage i = 0 then ((i : Int), fun j => if j = i then 1 else usage j)
    else getLockIDGo usage rest

/-- LockAnalysis::getLockID (source lines 80-89): scan indices 0..15. -/
def getLockID (usage : Nat → Nat) : Int × (Nat → Nat) :=
  getLockIDGo usage (List.range 16)

/-- The allocation step of createObjectFifoElements (source lines 193-194):
request a lock index and fail fatally (`assert(lockID >= 0 && "No more locks
to allocate!")`) when the allocator returns -1.  `none` models the fatal
assertion. -/
def allocateLockChecked (usage : Nat → Nat) : Option (Nat × (Nat → Nat)) :=
  let r := getLockID usage
  if r.1 < 0 then none else some (r.1.toNat, r.2)

/-- The LockAnalysis constructor (source lines 68-77): every lock operation
already present in the module marks its (tile, lockID) pair as used.  This is
the usage slice for tile `t` given the list `pre` of pre-existing
(tile, lockID) pairs. -/
def initLocks (pre : List (Nat × Nat)) (t : Nat) : Nat → Nat :=
  fun i => if (t, i) ∈ pre then 1 else 0

/-!
Queue sizing (findObjectFifoSize, source lines 620-646).
-/

/-- The maximum-acquire accumulation of findObjectFifoSize (source lines
625-634): `maxAcquire` starts at 0 and is raised to every acquire number
(of an acquire of this fifo inside a core on the sizing tile) that exceeds
it.  `acqs` lists those acquire numbers. -/
def maxAcquire (acqs : List Nat) : Nat := acqs.foldl max 0

/-- findObjectFifoSize (source lines 620-646): 0 when the declared size is 0;
otherwise, with `m` the maximum observed acquire: 1 when `m = 1` and the
declared size is 1, `m + 1` when `m > 0` otherwise, and 0 when `m = 0`
(no core on the tile acquires this fifo). -/
def findObjectFifoSize (size : Nat) (acqs : List Nat) : Nat :=
  if size = 0 then 0
  else
    let m := maxAcquire acqs
    if m > 0 then
      if m = 1 ∧ size = 1 then 1 else m + 1
    else 0

/-!
Queue elaboration (runOnOperation, source lines 660-705).

For each consumer tile of a fifo the pass checks, only when there is exactly
one consumer, whether producer and consumer are memory-adjacent; if so the
fifo is marked shared and the consumer scan stops.  Otherwise a child fifo is
synthesized on the consumer tile.  A consumer is described by its tile id and
by the result of `isLegalMemAffinity` for the (producer, consumer) pair.
-/

/-- Description of one consumer of a fifo: its tile and whether it is
memory-adjacent to the producer tile (the `isLegalMemAffinity` result,
source lines 672-675). -/
structure ConsumerInfo where
  tile : Nat
  adjacent : Bool
deriving DecidableEq, Repr

/-- The consumer loop of runOnOperation (source lines 666-691), with `n` the
total number of consumers (`createOp.consumerTiles().size()`).  Returns the
`shared` flag and the tiles on which child fifos were synthesized, in
creation order.  The adjacency check runs only when `n = 1` (source line
671); on success it sets `shared` and breaks out of the loop. -/
def elabGo (n : Nat) : List ConsumerInfo → Bool × List Nat
  | [] => (false, [])
  | c :: rest =>
    if n = 1 && c.adjacent then (true, [])
    else
      let r := elabGo n rest
      (r.1, c.tile :: r.2)

/-- Queue elaboration over the whole consumer list (source lines 666-691). -/
def elaborateConsumers (cs : List ConsumerInfo) : Bool × List Nat :=
  elabGo cs.length cs

/-!
Split-fifo substitution (checkSplitFifo, source lines 546-570).

Fifos are identified by a numeric id.  The split map associates a parent fifo
id with the list of its child fifos, each carrying its own id and its
producer tile (children are created with the consumer tile as their producer
tile, source lines 686-688).  The source replaces the parent operand by each
child whose producer tile equals the executing tile; after the first
replacement the operation no longer uses the parent, so later iterations are
no-ops — hence the first matching child wins.
-/

/-- One child fifo recorded in the split map. -/
structure SplitChild where
  fifoId : Nat
  producerTile : Nat
deriving DecidableEq, Repr

/-- checkSplitFifo (source lines 546-570): the fifo id actually referenced by
an acquire/release on fifo `f` with port `port` executing on tile `tile`,
after substitution against the split map `sm`. -/
def checkSplitFifo (sm : List (Nat × List SplitChild)) (f : Nat)
    (port : ObjectFifoPort) (tile : Nat) : Nat :=
  match sm.find? (fun e => e.1 = f) with
  | none => f
  | some e =>
    if port = ObjectFifoPort.Consume then
      match e.2.find? (fun c => c.producerTile = tile) with
      | some c => c.fifoId
      | none => f
    else f

/-!
Port validation (checkCorrectPort, source lines 575-614).
-/

/-- One ancestor operation on the parent chain of an acquire/release: either
a CoreOp (with its tile) or any other operation. -/
inductive AncestorKind where
  | core (tile : Nat)
  | other
deriving DecidableEq, Repr

/-- The parent walk of checkCorrectPort (source lines 591-597): the first
CoreOp on the ancestor chain, or `none` when the chain ends without one
(which the source makes fatal). -/
def findEnclosingCore : List AncestorKind → Option Nat
  | [] => none
  | AncestorKind.core t :: _ => some t
  | AncestorKind.other :: rest => findEnclosingCore rest

/-- checkCorrectPort (source lines 575-614): `false` models a fatal
assertion.  A produce-port operation must run on the fifo producer tile; a
consume-port operation must run on one of the fifo consumer tiles; an
operation with no enclosing CoreOp is fatal. -/
def checkCorrectPort (ancestors : List AncestorKind) (port : ObjectFifoPort)
    (producerTile : Nat) (consumerTiles : List Nat) : Bool :=
  match findEnclosingCore ancestors with
  | none => false
  | some t =>
    match port with
    | ObjectFifoPort.Produce => t = producerTile
    | ObjectFifoPort.Consume => consumerTiles.contains t

/-!
DMA chain construction (createBdBlock, source lines 218-235, and createDMA,
source lines 239-298).

A descriptor block is embedded by the indices and modes it mentions: the
lock it acquires and releases (lock index `i` for block `i`), the acquire
and release modes derived from the chain's lock mode, the buffer it moves
(buffer index `i`), the transfer offset and length, and the index of the
successor block in the ring.  The MemOp region that receives the chain is
abstracted to the list of chains it already holds, in program order; the
source inserts the new chain's blocks before the end block and rewires the
previous last chain's DMAStart successor to it (source lines 270-280), which
amounts to appending the new chain after the existing ones.
-/

/-- One buffer-descriptor block as built by createBdBlock (source lines
218-235). -/
structure BdBlock where
  lockIndex : Nat
  acqMode : Nat
  relMode : Nat
  bufIndex : Nat
  offset : Nat
  len : Nat
  nextBlock : Nat
deriving DecidableEq, Repr

/-- The transfer length of createBdBlock (source lines 224-227): the product
of the buffer shape dimensions, starting from 1. -/
def shapeLen (shape : List Nat) : Nat := shape.foldl (fun a i => a * i) 1

/-- createBdBlock (source lines 218-235) for block index `i` of a chain with
lock mode `lockMode`: acquire mode is `lockMode == 0 ? 1 : 0`, release mode
is `lockMode == 0 ? 0 : 1`, offset 0, full-extent length. -/
def createBdBlock (lockMode i : Nat) (shape : List Nat) (succ : Nat) : BdBlock :=
  { lockIndex := i
    acqMode := if lockMode = 0 then 1 else 0
    relMode := if lockMode = 0 then 0 else 1
    bufIndex := i
    offset := 0
    len := shapeLen shape
    nextBlock := succ }

/-- createDMA (source lines 239-298) acting on the chains already present in
the tile's MemOp region: depth 0 builds nothing (source lines 242-243), a
depth above 14 is fatal (`assert(numBlocks <= 14 ...)`, source lines
244-245, embedded as `none`), and otherwise one block per depth slot is
built, block `i` branching to block `(i+1) mod depth` (the last block closes
the ring back to the first, source lines 286-297), and the new chain is
appended after the region's existing chains. -/
def createDMA (mem : List (List BdBlock)) (numBlocks lockMode : Nat)
    (shape : List Nat) : Option (List (List BdBlock)) :=
  if numBlocks = 0 then some mem
  else if 14 < numBlocks then none
  else
    some (mem ++
      [(List.range numBlocks).map
        (fun i => createBdBlock lockMode i shape ((i + 1) % numBlocks))])

/-!
Loop unrolling (unrollForLoops, source lines 400-514, and duplicateBlock,
source lines 349-398).

The arithmetic of the transformation acts on the loop's constant lower
bound, upper bound and step (int64_t values, source lines 448-462, embedded
as `Int` with truncating division).  The clones produced by duplicateBlock
are described by the additive offsets applied to operands that depend on the
loop induction variable: clone `i` inside the loop uses offset `(i+1)*step`
from the induction variable (source lines 377-379), a clone after the loop
uses offset `i*step` from the base value passed in (source lines 380-381) —
the loop's lower bound for a full unroll (source line 474) and the loop's
final upper bound for the remainder (source line 508).
-/

/-- Outcome of unrolling one loop: whether the loop construct was erased
(full unroll), the loop's new step and upper bound, the induction-variable
offsets of the clones placed inside the loop, of the remainder clones placed
after the loop (relative to the final upper bound), and of the full-unroll
clones (relative to the lower bound). -/
structure UnrollOutcome where
  erasedLoop : Bool
  newStep : Int
  newUpper : Int
  inLoopCopies : List Int
  postCopies : List Int
  fullCopies : List Int
deriving DecidableEq, Repr

/-- The per-loop transformation of unrollForLoops (source lines 447-509)
for a loop with lower bound `l`, upper bound `u`, step `s` and unroll factor
`uf` (the LCM of the depths of the fifos acquired in the body, source lines
425-426).  `num_iter = (u-l)/s`; when `num_iter <= uf` the body is cloned
`num_iter` times after the loop and the loop is erased (source lines
469-475); otherwise the step becomes `uf*s`, the upper bound shrinks to
`((u-l)/(uf*s))*(uf*s)` exactly when the remainder `((u-l) mod (uf*s))/s`
is positive (source lines 481-499), `uf-1` copies are cloned inside the
loop and `remainder` copies after it (source lines 501-508). -/
def unrollTransform (l u s uf : Int) : UnrollOutcome :=
  let numIter := (u - l).tdiv s
  if numIter ≤ uf then
    { erasedLoop := true
      newStep := s
      newUpper := u
      inLoopCopies := []
      postCopies := []
      fullCopies := (List.range numIter.toNat).map (fun (k : Nat) => (k : Int) * s) }
  else
    let ns := uf * s
    let remainder := ((u - l).tmod ns).tdiv s
    let u' := if 0 < remainder then ((u - l).tdiv ns) * ns else u
    { erasedLoop := false
      newStep := ns
      newUpper := u'
      inLoopCopies :=
        (List.range (uf - 1).toNat).map (fun (k : Nat) => ((k : Int) + 1) * s)
      postCopies :=
        (List.range remainder.toNat).map (fun (k : Nat) => (k : Int) * s)
      fullCopies := [] }

/-- Number of iterations of an scf.for loop with constant bounds and a
positive step: the values `l, l+s, l+2s, ...` strictly below `u`. -/
def loopIterCount (l u s : Int) : Nat :=
  if 0 < s then (((u - l) + s - 1).tdiv s).toNat else 0

/-- The induction-variable values taken by an scf.for loop. -/
def loopIterValues (l u s : Int) : List Int :=
  (List.range (loopIterCount l u s)).map (fun (k : Nat) => l + (k : Int) * s)

/-- The effective induction values of the transformed loop body, grouped by
iteration of the rewritten loop: each iteration executes the original body
at the induction value followed by the in-loop clones at their offsets. -/
def unrolledBodyValues (l u s uf : Int) : List (List Int) :=
  let r := unrollTransform l u s uf
  (loopIterValues l r.newUpper r.newStep).map
    (fun v => v :: r.inLoopCopies.map (fun off => v + off))

/-- The effective induction values of the remainder clones placed after the
loop: the final upper bound plus each remainder offset. -/
def remainderValues (l u s uf : Int) : List Int :=
  let r := unrollTransform l u s uf
  r.postCopies.map (fun off => r.newUpper + off)

/-!
Acquire-time release accounting (runOnOperation, source lines 814-872).

Positions of operations are embedded as a block id plus an index inside the
block; `bp b` gives the position of the operation owning block `b` (the
parent operation of the block).  The C++ loop iterates a
`std::vector<ObjectFifoReleaseOp>` by value while erasing from the same
vector; we model it as visiting each entry of the list as it stood when the
loop started (the code's evident intent of considering every recorded
release once) while the erasures act on the evolving list.
-/

/-- Position of an operation: the block containing it and its index within
that block's operation order. -/
structure OpPos where
  block : Nat
  idx : Nat
deriving DecidableEq, Repr

/-- One recorded release: the fifo it releases, its release count
(`relNumber`), and its position. -/
structure RelEntry where
  fifo : Nat
  count : Nat
  pos : OpPos
deriving DecidableEq, Repr

/-- Operation::isBeforeInBlock for two operations in the same block. -/
def isBeforeInBlock (a b : OpPos) : Bool := decide (a.idx < b.idx)

/-- The program-order test of the acquire walk (source lines 820-856): a
release matches an acquire when they are in the same block and the acquire
is not before the release, or the release sits in the block of the
acquire's parent operation (one nesting level up) and that parent is not
before the release, or the release's parent operation sits in the acquire's
block and the acquire is not before that parent. -/
def relPrecedesAcq (bp : Nat → OpPos) (acq rel : OpPos) : Bool :=
  if rel.block = acq.block then !(isBeforeInBlock acq rel)
  else
    let acqP := bp acq.block
    if rel.block = acqP.block then !(isBeforeInBlock acqP rel)
    else
      let relP := bp rel.block
      if acq.block = relP.block then !(isBeforeInBlock acq relP)
      else false

/-- The release-accounting loop of the acquire walk (source lines 814-858):
visit every recorded release in order; each release on the acquire's fifo
that precedes it in program order adds its count to `numRel` and triggers
`releaseOps.erase(releaseOps.begin())` — the removal of the FRONT entry of
the evolving list, whatever entry that is.  Returns `numRel` and the list
remaining after the loop. -/
def scanReleases (bp : Nat → OpPos) (acqFifo : Nat) (acqPos : OpPos) :
    List RelEntry → List RelEntry → Nat × List RelEntry
  | [], cur => (0, cur)
  | e :: rest, cur =>
    if e.fifo = acqFifo && relPrecedesAcq bp acqPos e.pos then
      let r := scanReleases bp acqFifo acqPos rest cur.tail
      (e.count + r.1, r.2)
    else scanReleases bp acqFifo acqPos rest cur

/-- The release accounting performed when an acquire on `acqFifo` at
`acqPos` is resolved, starting from the recorded release list `rels`
(source lines 814-858). -/
def resolveAcqScan (bp : Nat → OpPos) (acqFifo : Nat) (acqPos : OpPos)
    (rels : List RelEntry) : Nat × List RelEntry :=
  scanReleases bp acqFifo acqPos rels rels

/-- The acquired-indices update of the acquire walk (source lines 860-872):
`prev` is the index list recorded by the previous acquire of this fifo in
this core (`acquiresPerFifo[op]`), `numRel` the release total from the scan.
Only when `prev` is nonempty does the source copy it, assert
`numRel <= prev.size()` (fatal otherwise, embedded as `none`), and erase
`numRel` entries from its front; when `prev` is empty the result is the
empty list with no check. -/
def applyReleasesToAcquired (prev : List Nat) (numRel : Nat) :
    Option (List Nat) :=
  if prev.length ≠ 0 then
    if numRel ≤ prev.length then some (prev.drop numRel) else none
  else some []

/-!
Pre-unroll split substitution (unrollForLoops, source lines 403-427).

Before any cloning, the scan over the loop body visits only the
ObjectFifoAcquireOp operations directly in the body (source line 414,
`body->getOps<ObjectFifoAcquireOp>()`) and calls checkSplitFifo on each;
release operations in the body are not visited by this scan.
-/

/-- One operation of a loop body, as far as the pre-unroll scan is
concerned: an acquire or release of a fifo through a port, or anything
else. -/
inductive BodyOp where
  | acquire (fifo : Nat) (port : ObjectFifoPort)
  | release (fifo : Nat) (port : ObjectFifoPort)
  | other (tag : Nat)
deriving DecidableEq, Repr

/-- The pre-unroll rewrite of a loop body executing on `tile` (source lines
414-423): every acquire directly in the body has its fifo operand passed
through checkSplitFifo; every other operation, releases included, is left
unchanged. -/
def unrollPreRewrite (sm : List (Nat × List SplitChild)) (tile : Nat)
    (body : List BodyOp) : List BodyOp :=
  body.map fun op =>
    match op with
    | BodyOp.acquire f p => BodyOp.acquire (checkSplitFifo sm f p tile) p
    | x => x

/-!
Helper lemmas shared by the claim theorems.
-/

/-- Bridge between the embedded C++ truncating division and Nat division on
nonnegative operands. -/
theorem tdiv_ofNat (A B : Nat) : (A : Int).tdiv (B : Int) = ((A / B : Nat) : Int) := rfl

/-- Bridge between the embedded C++ truncating remainder and Nat remainder on
nonnegative operands. -/
theorem tmod_ofNat (A B : Nat) : (A : Int).tmod (B : Int) = ((A % B : Nat) : Int) := rfl

/-- The lock scan finds the first free candidate: if every index of `l1` is
in use and `i` is free, scanning `l1 ++ i :: l2` returns `i` and the usage
map with `i` marked. -/
theorem getLockIDGo_found (usage : Nat → Nat) (l1 l2 : List Nat) (i : Nat)
    (h1 : ∀ j ∈ l1, usage j ≠ 0) (h2 : usage i = 0) :
    getLockIDGo usage (l1 ++ i :: l2) =
      ((i : Int), fun j => if j = i then 1 else usage j) := by
  induction l1 with
  | nil => simp [getLockIDGo, h2]
  | cons a t ih =>
    have ha : usage a ≠ 0 := h1 a (by simp)
    simpa [getLockIDGo, ha] using ih (fun j hj => h1 j (by simp [hj]))

/-- Decomposition of a range around one of its members. -/
theorem range_decompose (i n : Nat) (h : i < n) :
    List.range n =
      List.range i ++ i :: ((List.range (n - (i + 1))).map (fun k => (i + 1) + k)) := by
  have h1 : n = (i + 1) + (n - (i + 1)) := by omega
  conv_lhs => rw [h1]
  rw [List.range_add, List.range_succ]
  simp

/-- When the lock scan returns a nonnegative index, that index had usage
count 0. -/
theorem getLockIDGo_free_of_found (usage : Nat → Nat) :
    ∀ (l : List Nat) (i : Nat), (getLockIDGo usage l).1 = (i : Int) → usage i = 0 := by
  intro l
  induction l with
  | nil => intro i h; simp [getLockIDGo] at h
  | cons a t ih =>
    intro i h
    by_cases hb : usage a = 0
    · simp [getLockIDGo, hb] at h
      have : a = i := by omega
      exact this ▸ hb
    · simp [getLockIDGo, hb] at h
      exact ih i h

/-- When elaboration does not mark the fifo shared, one child fifo is
created per consumer, in order. -/
theorem elabGo_children (n : Nat) (cs : List ConsumerInfo)
    (h : (elabGo n cs).1 = false) :
    (elabGo n cs).2 = cs.map ConsumerInfo.tile := by
  induction cs with
  | nil => simp [elabGo]
  | cons c rest ih =>
    by_cases hb : (decide (n = 1) && c.adjacent) = true
    · simp [elabGo, hb] at h
    · simp only [elabGo, hb, if_false, Bool.false_eq_true, ite_false, List.map] at h ⊢
      exact congrArg (c.tile :: ·) (ih h)

/-- The consume-port substitution picks the first child whose producer tile
is the executing tile. -/
theorem checkSplitFifo_consume (sm : List (Nat × List SplitChild)) (p : Nat)
    (children : List SplitChild) (t : Nat) (c : SplitChild)
    (hfind : sm.find? (fun e => e.1 = p) = some (p, children))
    (hchild : children.find? (fun c' => c'.producerTile = t) = some c) :
    checkSplitFifo sm p ObjectFifoPort.Consume t = c.fifoId := by
  simp [checkSplitFifo, hfind, hchild]

/-- Claim C4: LockAnalysis::getLockID returns the smallest index in 0..15
whose usage count is 0 and marks it used; with indices 0 through 14 already
in use the next request succeeds and returns 15, and the request after that
fails fatally with the lock-exhaustion assertion (source lines 80-89 and
193-194; the fatal assertion is modelled by `allocateLockChecked`
returning `none`). -/
theorem C4_lock_allocator (usage : Nat → Nat) (i : Nat) (hi : i < 16)
    (hfree : usage i = 0) (hmin : ∀ j, j < i → usage j ≠ 0) :
    ((getLockID usage).1 = (i : Int) ∧
      (∀ j : Nat, (getLockID usage).2 j = if j = i then 1 else usage j)) ∧
    (getLockID (fun j => if j < 15 then 1 else 0)).1 = 15 ∧
    allocateLockChecked ((getLockID (fun j => if j < 15 then 1 else 0)).2) = none := by
  refine ⟨?_, by decide, by rfl⟩
  have hdec := range_decompose i 16 hi
  have hfound := getLockIDGo_found usage (List.range i)
    ((List.range (16 - (i + 1))).map (fun k => (i + 1) + k)) i
    (fun j hj => hmin j (List.mem_range.mp hj)) hfree
  rw [getLockID, hdec, hfound]
  exact ⟨rfl, fun j => rfl⟩

/-- Witness for C4 at the concrete usage map with every slot free: index 0
is allocated. -/
theorem C4_lock_allocator_witness :
    (((getLockID (fun _ => 0)).1 = ((0 : Nat) : Int) ∧
      (∀ j : Nat, (getLockID (fun _ => 0)).2 j = if j = 0 then 1 else 0)) ∧
    (getLockID (fun j => if j < 15 then 1 else 0)).1 = 15 ∧
    allocateLockChecked ((getLockID (fun j => if j < 15 then 1 else 0)).2) = none) :=
  C4_lock_allocator (fun _ => 0) 0 (by decide) rfl
    (fun j hj => absurd hj (Nat.not_lt_zero j))

/-- Claim C10: the lock allocator never hands out a (tile, index) pair
already occupied by a lock operation of the input module: the LockAnalysis
constructor (source lines 68-77) marks every pre-existing lock's index on
its tile as used before any request is served, and getLockID only returns
indices with usage count 0. -/
theorem C10_fresh_locks (pre : List (Nat × Nat)) (t i : Nat)
    (h : (getLockID (initLocks pre t)).1 = (i : Int)) : (t, i) ∉ pre := by
  have hfree : initLocks pre t i = 0 :=
    getLockIDGo_free_of_found (initLocks pre t) (List.range 16) i h
  intro hmem
  simp [initLocks, hmem] at hfree

/-- Witness for C10: with lock (0,0) pre-existing, the allocator returns
index 1 on tile 0, and (0,1) is indeed not a pre-existing lock. -/
theorem C10_fresh_locks_witness : ((0 : Nat), (1 : Nat)) ∉ [((0 : Nat), (0 : Nat))] :=
  C10_fresh_locks [(0, 0)] 0 1 (by decide)

/-- Claim C7: checkCorrectPort (source lines 575-614) fails fatally (result
`false`) whenever the declared port is produce and the enclosing core's tile
differs from the fifo's producer tile, whenever the port is consume and the
core's tile is not among the consumer tiles, and whenever the operation has
no enclosing CoreOp; it never silently succeeds in these cases. -/
theorem C7_port_check (ancestors : List AncestorKind) (port : ObjectFifoPort)
    (producerTile : Nat) (consumerTiles : List Nat) :
    (findEnclosingCore ancestors = none →
      checkCorrectPort ancestors port producerTile consumerTiles = false) ∧
    (∀ t, findEnclosingCore ancestors = some t → port = ObjectFifoPort.Produce →
      t ≠ producerTile →
      checkCorrectPort ancestors port producerTile consumerTiles = false) ∧
    (∀ t, findEnclosingCore ancestors = some t → port = ObjectFifoPort.Consume →
      t ∉ consumerTiles →
      checkCorrectPort ancestors port producerTile consumerTiles = false) := by
  refine ⟨?_, ?_, ?_⟩
  · intro h
    simp [checkCorrectPort, h]
  · intro t h hp hne
    subst hp
    simp [checkCorrectPort, h, hne]
  · intro t h hp hnm
    subst hp
    simp only [checkCorrectPort, h]
    simpa using hnm

/-- Witness for C7: a consume-port operation inside a core on tile 3 against
a fifo whose consumer tiles are [1, 2] is rejected. -/
theorem C7_port_check_witness :
    checkCorrectPort [AncestorKind.other, AncestorKind.core 3]
      ObjectFifoPort.Consume 0 [1, 2] = false :=
  (C7_port_check [AncestorKind.other, AncestorKind.core 3]
    ObjectFifoPort.Consume 0 [1, 2]).2.2 3 rfl rfl (by decide)

/-- Normal form of findObjectFifoSize when the declared size is nonzero and
an acquire was observed. -/
theorem findObjectFifoSize_pos (size : Nat) (acqs : List Nat)
    (hs0 : size ≠ 0) (hm : 0 < maxAcquire acqs) :
    findObjectFifoSize size acqs =
      if maxAcquire acqs = 1 ∧ size = 1 then 1 else maxAcquire acqs + 1 := by
  simp [findObjectFifoSize, hs0, hm]

/-- Counterexample to claim C1 as stated: a queue with declared depth 2
whose sizing tile shows no acquire resolves to depth 0 (source lines
636-645 return 0 when maxAcquire is 0), so the resolved depth is not always
at least 1. -/
theorem C1_depth_counterexample : ¬ (1 ≤ findObjectFifoSize 2 []) := by decide

/-- Claim C1 (amended): provided the declared depth is nonzero and the
sizing node observes at least one acquire, the resolved depth is at least 1,
equals 1 exactly when both the maximum acquire and the declared depth are 1,
and equals maxAcquire + 1 otherwise; when the declared depth is 0 or no
acquire is observed, the resolved depth is 0 (findObjectFifoSize, source
lines 620-646). -/
theorem C1_depth_resolved_amended (size : Nat) (acqs : List Nat)
    (hs : 0 < size) (hm : 0 < maxAcquire acqs) :
    1 ≤ findObjectFifoSize size acqs ∧
    (findObjectFifoSize size acqs = 1 ↔ maxAcquire acqs = 1 ∧ size = 1) ∧
    (¬ (maxAcquire acqs = 1 ∧ size = 1) →
      findObjectFifoSize size acqs = maxAcquire acqs + 1) ∧
    (∀ (s' : Nat) (a' : List Nat), s' = 0 ∨ maxAcquire a' = 0 →
      findObjectFifoSize s' a' = 0) := by
  have hs0 : size ≠ 0 := by omega
  rw [findObjectFifoSize_pos size acqs hs0 hm]
  refine ⟨?_, ?_, ?_, ?_⟩
  · by_cases hc : maxAcquire acqs = 1 ∧ size = 1 <;> simp [hc]
  · by_cases hc : maxAcquire acqs = 1 ∧ size = 1
    · simp [hc]
    · simp [hc]
      omega
  · intro hc; simp [hc]
  · intro s' a' h
    rcases h with h | h
    · simp [findObjectFifoSize, h]
    · simp [findObjectFifoSize, h, ite_self]

/-- Witness for C1 at declared depth 2 with observed acquires [2]: the
resolved depth is maxAcquire + 1 = 3. -/
theorem C1_depth_resolved_witness :
    findObjectFifoSize 2 [2] = maxAcquire [2] + 1 :=
  (C1_depth_resolved_amended 2 [2] (by decide) (by decide)).2.2.1 (by decide)

/-- Counterexample to claim C3 as stated: a queue with two consumers, the
first memory-adjacent and the second not, gets a child queue for BOTH
consumers (the adjacency check of source lines 671-680 runs only when there
is exactly one consumer), so a child is created for an adjacent consumer
even though the claim says none is. -/
theorem C3_split_counterexample :
    (elaborateConsumers [{ tile := 0, adjacent := true },
        { tile := 1, adjacent := false }]).2 = [0, 1] ∧
    (0 : Nat) ∈ (elaborateConsumers [{ tile := 0, adjacent := true },
        { tile := 1, adjacent := false }]).2 := by decide

/-- Claim C3 (amended): whenever the queue is not marked shared (which
happens exactly when it has exactly one consumer and that consumer is
memory-adjacent), the elaborator creates exactly one child queue per
consumer — adjacent or not — in consumer order (source lines 666-691), and
a consume-port acquire or release on a tile for which a child exists is
rewritten by checkSplitFifo to that tile's (first) child queue, never the
parent, provided the child's id is distinct from the parent's (children are
freshly created operations, source lines 686-688). -/
theorem C3_split_children_amended (cs : List ConsumerInfo)
    (hns : (elaborateConsumers cs).1 = false)
    (sm : List (Nat × List SplitChild)) (p : Nat) (children : List SplitChild)
    (t : Nat) (c : SplitChild)
    (hfind : sm.find? (fun e => e.1 = p) = some (p, children))
    (hchild : children.find? (fun c' => c'.producerTile = t) = some c)
    (hfresh : c.fifoId ≠ p) :
    (elaborateConsumers cs).2 = cs.map ConsumerInfo.tile ∧
    checkSplitFifo sm p ObjectFifoPort.Consume t = c.fifoId ∧
    checkSplitFifo sm p ObjectFifoPort.Consume t ≠ p := by
  refine ⟨elabGo_children cs.length cs hns,
    checkSplitFifo_consume sm p children t c hfind hchild, ?_⟩
  rw [checkSplitFifo_consume sm p children t c hfind hchild]
  exact hfresh

/-- Witness for C3: one non-adjacent consumer on tile 4; the split map sends
parent 7 to child 9 on tile 4, and the consume-port reference resolves to
9. -/
theorem C3_split_children_witness :
    checkSplitFifo [(7, [{ fifoId := 9, producerTile := 4 }])] 7
      ObjectFifoPort.Consume 4 = (9 : Nat) :=
  (C3_split_children_amended [{ tile := 4, adjacent := false }] (by decide)
    [(7, [{ fifoId := 9, producerTile := 4 }])] 7
    [{ fifoId := 9, producerTile := 4 }] 4 { fifoId := 9, producerTile := 4 }
    (by decide) (by decide) (by decide)).2.1

/-- Claim C6: createDMA (source lines 239-298) builds nothing at depth 0,
fails fatally above depth 14, and otherwise builds exactly depth descriptor
blocks in a ring — block i acquiring lock i in mode (m==0?1:0), moving
buffer i at offset 0 over its full extent, releasing lock i in mode
(m==0?0:1), branching to block (i+1) mod depth — appended after the
region's existing chains. -/
theorem C6_dma_chain (mem : List (List BdBlock)) (D m : Nat) (shape : List Nat) :
    (D = 0 → createDMA mem D m shape = some mem) ∧
    (14 < D → createDMA mem D m shape = none) ∧
    (0 < D → D ≤ 14 →
      ∃ chain, createDMA mem D m shape = some (mem ++ [chain]) ∧
        chain.length = D ∧
        ∀ (i : Nat) (h : i < chain.length),
          chain.get ⟨i, h⟩ =
            { lockIndex := i, acqMode := if m = 0 then 1 else 0,
              relMode := if m = 0 then 0 else 1, bufIndex := i, offset := 0,
              len := shapeLen shape, nextBlock := (i + 1) % D }) := by
  refine ⟨?_, ?_, ?_⟩
  · intro h; simp [createDMA, h]
  · intro h
    have h0 : D ≠ 0 := by omega
    simp [createDMA, h0, h]
  · intro h1 h2
    have h0 : D ≠ 0 := by omega
    have h14 : ¬ 14 < D := by omega
    refine ⟨(List.range D).map (fun i => createBdBlock m i shape ((i + 1) % D)),
      ?_, by simp, ?_⟩
    · simp [createDMA, h0, h14]
    · intro i h
      simp [List.get_eq_getElem, List.getElem_map, List.getElem_range, createBdBlock]

/-- Witness for C6 at depths 0, 15 and 2 (lock mode 0, shape [3]). -/
theorem C6_dma_chain_witness :
    createDMA ([] : List (List BdBlock)) 0 0 [] = some [] ∧
    createDMA ([] : List (List BdBlock)) 15 0 [] = none ∧
    (∃ chain, createDMA ([] : List (List BdBlock)) 2 0 [3] = some ([] ++ [chain]) ∧
      chain.length = 2 ∧
      ∀ (i : Nat) (h : i < chain.length),
        chain.get ⟨i, h⟩ =
          { lockIndex := i, acqMode := if (0 : Nat) = 0 then 1 else 0,
            relMode := if (0 : Nat) = 0 then 0 else 1, bufIndex := i, offset := 0,
            len := shapeLen [3], nextBlock := (i + 1) % 2 }) :=
  ⟨(C6_dma_chain [] 0 0 []).1 rfl, (C6_dma_chain [] 15 0 []).2.1 (by decide),
    (C6_dma_chain [] 2 0 [3]).2.2 (by decide) (by decide)⟩

/-- Counterexample to claim C8 as stated: with an empty recorded
acquired-index list and one pending release, the source skips the
"Cannot release more elements than are already acquired" assertion entirely
(it sits inside `if (acquiresPerFifo[op].size() != 0)`, source lines
862-872) and proceeds with an empty list instead of failing fatally. -/
theorem C8_release_counterexample : applyReleasesToAcquired [] 1 = some [] := rfl

/-- Claim C8 (amended): the transformation fails fatally when the kernel
currently holds at least one slot of the queue and the pending-release total
exceeds the held count; when the kernel has never acquired any slot of the
queue, pending releases are silently ignored rather than rejected (source
lines 860-872). -/
theorem C8_release_bound_amended (prev : List Nat) (numRel : Nat)
    (h1 : prev ≠ []) (h2 : prev.length < numRel) :
    applyReleasesToAcquired prev numRel = none ∧
    (∀ k : Nat, applyReleasesToAcquired [] k = some []) := by
  constructor
  · have hlen : prev.length ≠ 0 := by
      simpa [List.length_eq_zero] using h1
    have hle : ¬ numRel ≤ prev.length := by omega
    simp [applyReleasesToAcquired, hlen, hle]
  · intro k
    simp [applyReleasesToAcquired]

/-- Witness for C8: one held slot and two pending releases is fatal. -/
theorem C8_release_bound_witness : applyReleasesToAcquired [0] 2 = none :=
  (C8_release_bound_amended [0] 2 (by decide) (by decide)).1

/-- Counterexample to claim C9 as stated: a release of split parent 0
directly inside the loop body, executing on tile 5 which has child 1, is NOT
rewritten by the pre-unroll scan (source lines 414-423 visit only
ObjectFifoAcquireOp operations), so the clones still reference the parent. -/
theorem C9_prerewrite_counterexample :
    unrollPreRewrite [(0, [{ fifoId := 1, producerTile := 5 }])] 5
        [BodyOp.release 0 ObjectFifoPort.Consume] =
      [BodyOp.release 0 ObjectFifoPort.Consume] ∧
    [BodyOp.release (0 : Nat) ObjectFifoPort.Consume] ≠
      [BodyOp.release 1 ObjectFifoPort.Consume] := by decide

/-- Claim C9 (amended): before any cloning, the pre-unroll scan rewrites
every acquire directly in the loop body through checkSplitFifo, while every
release in the body is left unchanged (still naming the parent queue); the
releases are only rewritten later, clone by clone, by the acquire/release
resolver (source lines 414-423 and 769-772). -/
theorem C9_prerewrite_amended (sm : List (Nat × List SplitChild)) (tile : Nat)
    (body : List BodyOp) :
    (∀ f p, BodyOp.acquire f p ∈ body →
      BodyOp.acquire (checkSplitFifo sm f p tile) p ∈ unrollPreRewrite sm tile body) ∧
    (∀ f p, BodyOp.release f p ∈ body →
      BodyOp.release f p ∈ unrollPreRewrite sm tile body) := by
  constructor
  · intro f p hmem
    simp only [unrollPreRewrite]
    exact List.mem_map.mpr ⟨BodyOp.acquire f p, hmem, rfl⟩
  · intro f p hmem
    simp only [unrollPreRewrite]
    exact List.mem_map.mpr ⟨BodyOp.release f p, hmem, rfl⟩

/-- Witness for C9: an acquire of split parent 0 on tile 5 appears in the
rewritten body as an acquire of the resolved fifo. -/
theorem C9_prerewrite_witness :
    BodyOp.acquire
        (checkSplitFifo [(0, [{ fifoId := 1, producerTile := 5 }])] 0
          ObjectFifoPort.Consume 5) ObjectFifoPort.Consume ∈
      unrollPreRewrite [(0, [{ fifoId := 1, producerTile := 5 }])] 5
        [BodyOp.acquire 0 ObjectFifoPort.Consume] :=
  (C9_prerewrite_amended [(0, [{ fifoId := 1, producerTile := 5 }])] 5
    [BodyOp.acquire 0 ObjectFifoPort.Consume]).1 0 ObjectFifoPort.Consume
    (by decide)

/-- Claim C2, evaluated at its failing input (the claim is right about the
intent — the source's own comment says the erase ensures release operations
are not accounted again — but the code erases the FRONT of the release list,
source lines 824-827, not the matched entry): with pending releases
[(fifo 1, count 1), (fifo 0, count 1)] in that order and an acquire on
fifo 0 after both in the same block, the scan counts fifo 0's release but
removes fifo 1's entry, leaving fifo 0's entry in the list; a subsequent
acquire on fifo 0 then counts the same release a second time. -/
theorem C2_release_erase_front :
    resolveAcqScan (fun _ => { block := 0, idx := 0 }) 0 { block := 0, idx := 2 }
        [{ fifo := 1, count := 1, pos := { block := 0, idx := 0 } },
          { fifo := 0, count := 1, pos := { block := 0, idx := 1 } }] =
      (1, [{ fifo := 0, count := 1, pos := { block := 0, idx := 1 } }]) ∧
    resolveAcqScan (fun _ => { block := 0, idx := 0 }) 0 { block := 0, idx := 3 }
        [{ fifo := 0, count := 1, pos := { block := 0, idx := 1 } }] =
      (1, []) := by decide

/-- Normal form of unrollTransform in the partial-unroll case. -/
theorem unrollTransform_large_trip (l u s uf : Int) (h : ¬ ((u - l).tdiv s ≤ uf)) :
    unrollTransform l u s uf =
      { erasedLoop := false
        newStep := uf * s
        newUpper := if 0 < ((u - l).tmod (uf * s)).tdiv s
          then ((u - l).tdiv (uf * s)) * (uf * s) else u
        inLoopCopies :=
          (List.range (uf - 1).toNat).map (fun (k : Nat) => ((k : Int) + 1) * s)
        postCopies := (List.range (((u - l).tmod (uf * s)).tdiv s).toNat).map
          (fun (k : Nat) => (k : Int) * s)
        fullCopies := [] } := by
  simp [unrollTransform, h]

/-- The greatest multiple of B not exceeding A, for positive remainder. -/
theorem greatest_multiple_le (A B : Nat) (hmod : 0 < A % B) :
    ((A / B * B : Nat) : Int) ≤ (A : Int) ∧
    ((A / B * B : Nat) : Int) < (A : Int) ∧
    ((B : Nat) : Int) ∣ ((A / B * B : Nat) : Int) ∧
    ∀ m : Int, ((B : Nat) : Int) ∣ m → m ≤ (A : Int) → m ≤ ((A / B * B : Nat) : Int) := by
  have hle : A / B * B ≤ A := Nat.div_mul_le_self A B
  have hlt : A / B * B < A := by
    have h1 : A / B * B + A % B = A := Nat.div_add_mod' A B
    generalize hP : A / B * B = P at h1 ⊢
    generalize hr : A % B = r at h1 hmod
    omega
  refine ⟨Int.ofNat_le.mpr hle, Int.ofNat_lt.mpr hlt,
    Int.ofNat_dvd.mpr (dvd_mul_left B (A / B)), ?_⟩
  intro m hdvd hm
  rcases le_or_lt m 0 with h0 | h0
  · exact h0.trans (Int.ofNat_nonneg _)
  · obtain ⟨M, hM⟩ := Int.eq_ofNat_of_zero_le h0.le
    subst hM
    have hdvd' : B ∣ M := Int.ofNat_dvd.mp hdvd
    have hle' : M ≤ A := Int.ofNat_le.mp hm
    have hmono : M / B * B ≤ A / B * B :=
      Nat.mul_le_mul_right B (Nat.div_le_div_right hle')
    rw [Nat.div_mul_cancel hdvd'] at hmono
    exact Int.ofNat_le.mpr hmono

/-- Claim C5: for a loop whose trip count (upper-lower)/step strictly
exceeds the unroll factor, the step becomes unrollFactor*step; exactly
unrollFactor-1 extra copies are cloned inside the loop with
induction-variable offsets (i+1)*step; exactly
((upper-lower) mod (unrollFactor*step))/step remainder copies are cloned
after the loop with offsets i*step from the loop's final upper bound; the
upper bound is shrunk exactly when the remainder is nonzero, and then to
the largest multiple of the new step within the iteration span
upper-lower (strictly below the old upper bound); and the concrete loop
over [0,6) with step 1 containing one depth-3 queue becomes a step-3 loop
with 2 extra in-loop copies, no remainder, and effective induction values
[0,1,2] then [3,4,5] (unrollForLoops, source lines 447-509, and
duplicateBlock, source lines 349-398). -/
theorem C5_partial_unroll (l u s uf : Int)
    (hl : 0 ≤ l) (hs : 0 < s) (huf : 0 < uf)
    (hiter : uf < (u - l).tdiv s) :
    (unrollTransform l u s uf).erasedLoop = false ∧
    (unrollTransform l u s uf).newStep = uf * s ∧
    (unrollTransform l u s uf).inLoopCopies.length = (uf - 1).toNat ∧
    (∀ (i : Nat) (h : i < (unrollTransform l u s uf).inLoopCopies.length),
      (unrollTransform l u s uf).inLoopCopies.get ⟨i, h⟩ = ((i : Int) + 1) * s) ∧
    (unrollTransform l u s uf).postCopies.length =
      (((u - l).tmod (uf * s)).tdiv s).toNat ∧
    (∀ (i : Nat) (h : i < (unrollTransform l u s uf).postCopies.length),
      (unrollTransform l u s uf).postCopies.get ⟨i, h⟩ = (i : Int) * s) ∧
    (((u - l).tmod (uf * s)).tdiv s = 0 → (unrollTransform l u s uf).newUpper = u) ∧
    (0 < ((u - l).tmod (uf * s)).tdiv s →
      (unrollTransform l u s uf).newUpper < u ∧
      (uf * s) ∣ (unrollTransform l u s uf).newUpper ∧
      (unrollTransform l u s uf).newUpper ≤ u - l ∧
      (∀ m : Int, (uf * s) ∣ m → m ≤ u - l →
        m ≤ (unrollTransform l u s uf).newUpper)) ∧
    unrollTransform 0 6 1 3 =
      { erasedLoop := false, newStep := 3, newUpper := 6,
        inLoopCopies := [1, 2], postCopies := [], fullCopies := [] } ∧
    unrolledBodyValues 0 6 1 3 = [[0, 1, 2], [3, 4, 5]] ∧
    remainderValues 0 6 1 3 = [] := by
  have hne : ¬ ((u - l).tdiv s ≤ uf) := not_le.mpr hiter
  rw [unrollTransform_large_trip l u s uf hne]
  dsimp only
  obtain ⟨S, hS⟩ := Int.eq_ofNat_of_zero_le hs.le
  obtain ⟨F, hF⟩ := Int.eq_ofNat_of_zero_le huf.le
  subst hS
  subst hF
  have hS0 : 0 < S := by exact_mod_cast hs
  have hF0 : 0 < F := by exact_mod_cast huf
  have hul : 0 ≤ u - l := by
    rcases hcase : u - l with A | A
    · exact Int.ofNat_nonneg A
    · exfalso
      rw [hcase] at hiter
      have hneg : (Int.negSucc A).tdiv ((S : Nat) : Int) =
          -(((A + 1) / S : Nat) : Int) := rfl
      rw [hneg] at hiter
      generalize hW : (A + 1) / S = W at hiter
      omega
  obtain ⟨A, hA⟩ := Int.eq_ofNat_of_zero_le hul
  refine ⟨rfl, rfl, by simp, ?_, by simp, ?_, ?_, ?_, by decide, by decide, by decide⟩
  · intro i h
    simp [List.get_eq_getElem, List.getElem_map, List.getElem_range]
  · intro i h
    simp [List.get_eq_getElem, List.getElem_map, List.getElem_range]
  · intro h
    simp [h]
  · intro hrem
    rw [if_pos hrem]
    rw [hA] at hrem ⊢
    have hcast : ((F : Nat) : Int) * ((S : Nat) : Int) = ((F * S : Nat) : Int) := by
      push_cast
      ring
    rw [hcast] at hrem ⊢
    rw [tmod_ofNat, tdiv_ofNat] at hrem
    rw [tdiv_ofNat]
    have hmulcast : ((A / (F * S) : Nat) : Int) * ((F * S : Nat) : Int) =
        ((A / (F * S) * (F * S) : Nat) : Int) := by
      push_cast
      ring
    rw [hmulcast]
    have hremN : 0 < (A % (F * S)) / S := by exact_mod_cast hrem
    have hSle : S ≤ A % (F * S) := by
      by_contra hx
      push_neg at hx
      rw [Nat.div_eq_of_lt hx] at hremN
      omega
    have hmod : 0 < A % (F * S) := lt_of_lt_of_le hS0 hSle
    obtain ⟨g1, g2, g3, g4⟩ := greatest_multiple_le A (F * S) hmod
    generalize hX : A / (F * S) * (F * S) = X at g1 g2 g3 g4 ⊢
    exact ⟨by omega, g3, g1, g4⟩

/-- Witness for C5 at the loop [0,7) step 1 with unroll factor 2 (trip
count 7 > 2, remainder 1): the step becomes 2 and the upper bound is
shrunk below 7. -/
theorem C5_partial_unroll_witness :
    (unrollTransform 0 7 1 2).newStep = 2 * 1 ∧
    (unrollTransform 0 7 1 2).newUpper < 7 :=
  ⟨(C5_partial_unroll 0 7 1 2 (by decide) (by decide) (by decide)
      (by decide)).2.1,
    ((C5_partial_unroll 0 7 1 2 (by decide) (by decide) (by decide)
      (by decide)).2.2.2.2.2.2.2.1 (by decide)).1⟩
